import Mathlib

/-!
Verification of the ipcalc IPv4/CIDR calculator (src/main.rs).

The program works on 32-bit unsigned integers; we embed u32 values as
natural numbers below 2^32, with wrapping arithmetic written out as
`% 4294967296` where the Rust code could wrap.  u128 intermediate values
are naturals below 2^128, and the `as i64` cast is modelled explicitly.
Strings handled by the program are modelled as lists of characters,
split and joined exactly as the Rust code splits and joins them.
-/

namespace Ipcalc

/-- Rust: `fn mask_from_prefix(prefix: u8) -> u32`.
`if prefix == 0 { 0 } else { (!0u32) << (32 - prefix) }`.
`!0u32 = 4294967295`; the shift result is truncated to 32 bits. -/
def mask_from_pfx (pfx : Nat) : Nat :=
  if pfx = 0 then 0 else (4294967295 <<< (32 - pfx)) % 4294967296

/-- Rust: `fn wildcard_from_mask(mask: u32) -> u32 { !mask }`;
bitwise complement of a u32 is xor with all ones. -/
def wildcard_from_mask (mask : Nat) : Nat :=
  mask ^^^ 4294967295

/-- Semantics of Rust's `as i64` applied to a u128 value: truncate to
64 bits and reinterpret the result as a two's-complement signed value. -/
def u128_as_i64 (x : Nat) : Int :=
  let r := x % 18446744073709551616
  if r < 9223372036854775808 then (r : Int) else (r : Int) - 18446744073709551616

/-- Rust (main): the `hosts_net: i64` match.
`31 => 2, 32 => 1, _ => { let host_bits = 32 - prefix;
 if host_bits == 0 { 1 } else { ((1u128 << host_bits) - 2) as i64 } }`.
The u128 shift is truncated to 128 bits; the subtraction never wraps in
this branch because `host_bits >= 1` there. -/
def hosts_net (pfx : Nat) : Int :=
  if pfx = 31 then 2
  else if pfx = 32 then 1
  else
    let host_bits := 32 - pfx
    if host_bits = 0 then 1
    else u128_as_i64 ((1 <<< host_bits) % 340282366920938463463374607431768211456 - 2)

/-- The record of derived values computed by `main` after validation. -/
structure Result where
  mask : Nat
  wildcard : Nat
  network : Nat
  broadcast : Nat
  hosts : Int
  host_min : Nat
  host_max : Nat
deriving Repr, DecidableEq

/-- Rust (main): the straight-line derivation
`let mask = mask_from_prefix(prefix); let wildcard = wildcard_from_mask(mask);
 let network = ip_u & mask; let broadcast = network | wildcard;`
followed by the `hosts_net` match and
`let host_min = if prefix >= 31 { network } else { network + 1 };
 let host_max = if prefix >= 31 { broadcast } else { broadcast - 1 };`.
u32 addition and subtraction are modelled with an explicit wrap. -/
def compute (ip_u pfx : Nat) : Result :=
  let mask := mask_from_pfx pfx
  let wildcard := wildcard_from_mask mask
  let network := ip_u &&& mask
  let broadcast := network ||| wildcard
  { mask := mask
    wildcard := wildcard
    network := network
    broadcast := broadcast
    hosts := hosts_net pfx
    host_min := if 31 ≤ pfx then network else (network + 1) % 4294967296
    host_max := if 31 ≤ pfx then broadcast else (broadcast + 4294967295) % 4294967296 }

/-- Rust: the `match o1` arms in `detect_class_and_priv`:
`0 => "Address with 0.x (reserved)", 1..=126 => "Class A", 127 => "Loopback",
 128..=191 => "Class B", 192..=223 => "Class C", 224..=239 => "Class D (multicast)",
 _ => "Class E (reserved)"` (the wildcard arm covers 240..=255 for a u8). -/
def detect_class (o1 : Nat) : String :=
  if o1 = 0 then "Address with 0.x (reserved)"
  else if o1 ≤ 126 then "Class A"
  else if o1 = 127 then "Loopback"
  else if o1 ≤ 191 then "Class B"
  else if o1 ≤ 223 then "Class C"
  else if o1 ≤ 239 then "Class D (multicast)"
  else "Class E (reserved)"

/-- Rust: `fn detect_class_and_priv(addr: Ipv4Addr) -> (String, bool)`.
`o1` is the first be-byte of the address; the privacy match is
`[10,_,_,_] | [172, b,_,_] if (16..=31).contains(&b) | [192,168,_,_]`,
which only inspects the first two octets. -/
def detect_class_and_priv (x : Nat) : String × Bool :=
  let o1 := x / 16777216 % 256
  let o2 := x / 65536 % 256
  (detect_class o1,
   (o1 == 10) || ((o1 == 172) && (decide (16 ≤ o2) && decide (o2 ≤ 31)))
     || ((o1 == 192) && (o2 == 168)))

/-- Rust: `format!("{:08b}", o)` for a byte `o`: the eight bits of the byte,
most significant first, as characters. Strings are modelled as `List Char`. -/
def byteBits (b : Nat) : List Char :=
  (List.range 8).map (fun i => if b.testBit (7 - i) then '1' else '0')

/-- Rust (`binary_octets_with_split` loop body): the token(s) contributed by
octet number `i`: split into the first `split_offset` characters and the rest
when `i == split_bit && split_offset != 0`, otherwise kept whole. -/
def octetTokens (s : List Char) (i split_bit split_offset : Nat) : List (List Char) :=
  if i = split_bit ∧ split_offset ≠ 0 then [s.take split_offset, s.drop split_offset]
  else [s]

/-- The four big-endian octet bit-strings of a u32 value. -/
def base_octets (x : Nat) : List (List Char) :=
  [byteBits (x / 16777216 % 256), byteBits (x / 65536 % 256),
   byteBits (x / 256 % 256), byteBits (x % 256)]

/-- Rust: `fn binary_octets_with_split(x: u32, prefix: u8) -> String`, with
`split_bit = prefix / 8`, `split_offset = prefix % 8`, iterating over the four
be-bytes (the loop is unrolled here). -/
def binary_tokens (x pfx : Nat) : List (List Char) :=
  octetTokens (byteBits (x / 16777216 % 256)) 0 (pfx / 8) (pfx % 8) ++
  octetTokens (byteBits (x / 65536 % 256)) 1 (pfx / 8) (pfx % 8) ++
  octetTokens (byteBits (x / 256 % 256)) 2 (pfx / 8) (pfx % 8) ++
  octetTokens (byteBits (x % 256)) 3 (pfx / 8) (pfx % 8)

/-- Rust: `strs.join(" ")` on the collected tokens. -/
def binary_octets_with_split (x pfx : Nat) : String :=
  String.intercalate " " ((binary_tokens x pfx).map (fun l => String.mk l))

/-- Rust `str::split(sep)` semantics on a list of characters: splits at every
separator, keeping empty pieces (so `""` yields one empty piece). -/
def splitChar (sep : Char) : List Char → List (List Char)
  | [] => [[]]
  | c :: cs =>
    let r := splitChar sep cs
    if c = sep then [] :: r
    else
      match r with
      | [] => [[c]]
      | h :: t => (c :: h) :: t

/-- Decimal value of a list of digit characters. -/
def digitsToNat (l : List Char) : Nat :=
  l.foldl (fun a c => a * 10 + (c.toNat - 48)) 0

/-- One octet of Rust's `Ipv4Addr::from_str` grammar: a nonempty all-digit
group, no leading zero unless the group is exactly "0", value at most 255. -/
def parse_octet (l : List Char) : Option Nat :=
  if l ≠ [] ∧ l.all Char.isDigit ∧ (l.length = 1 ∨ l.headD '0' ≠ '0') ∧ digitsToNat l ≤ 255
  then some (digitsToNat l) else none

/-- Rust `Ipv4Addr::from_str`: exactly four dot-separated octets; the address
value is the big-endian combination of the four octets. -/
def ipv4_from_str (l : List Char) : Option Nat :=
  match splitChar '.' l with
  | [a, b, c, d] =>
    (parse_octet a).bind fun x1 =>
    (parse_octet b).bind fun x2 =>
    (parse_octet c).bind fun x3 =>
    (parse_octet d).bind fun x4 =>
    some (x1 * 16777216 + x2 * 65536 + x3 * 256 + x4)
  | _ => none

/-- Rust `u8::from_str`: an optional leading plus sign, then a nonempty
all-digit string whose value fits in a u8. -/
def parse_u8 (l : List Char) : Option Nat :=
  match l with
  | '+' :: rest =>
    if rest ≠ [] ∧ rest.all Char.isDigit ∧ digitsToNat rest ≤ 255
    then some (digitsToNat rest) else none
  | _ =>
    if l ≠ [] ∧ l.all Char.isDigit ∧ digitsToNat l ≤ 255
    then some (digitsToNat l) else none

/-- Rust (main): validation pipeline. Split the input on a slash and demand
exactly two parts (else the format error), parse the address part (else
"Invalid IP"), parse the prefix as u8 and demand at most 32 (else
"Invalid prefix (0-32)"); each error is printed to stderr and the process
exits with status 1, modelled as `Except.error` carrying the message. -/
def run_validation (input : String) : Except String (Nat × Nat) :=
  match splitChar '/' input.data with
  | [a, b] =>
    match ipv4_from_str a with
    | none => Except.error "Invalid IP"
    | some ip =>
      match parse_u8 b with
      | some p => if p ≤ 32 then Except.ok (ip, p) else Except.error "Invalid prefix (0-32)"
      | none => Except.error "Invalid prefix (0-32)"
  | _ => Except.error "Invalid Format. Use: ipcalc x.x.x.x/(0-32)"

/- ### Helper facts about masks, proved by finite check over the 33 prefixes -/

theorem mask_val : ∀ p, p < 33 → mask_from_pfx p = 4294967296 - 2 ^ (32 - p) := by decide

theorem wildcard_val : ∀ p, p < 33 →
    wildcard_from_mask (mask_from_pfx p) = 2 ^ (32 - p) - 1 := by decide

theorem mask_low_bits : ∀ p, p < 33 → mask_from_pfx p % 2 ^ (32 - p) = 0 := by decide

theorem mask_and_wildcard : ∀ p, p < 33 →
    mask_from_pfx p &&& wildcard_from_mask (mask_from_pfx p) = 0 := by decide

/-- If the low `k` bits of `a` are zero and `b < 2^k`, then `a ||| b = a + b`. -/
theorem or_eq_add_of_low_zero (k a b : Nat) (ha : a % 2 ^ k = 0) (hb : b < 2 ^ k) :
    a ||| b = a + b := by
  have ha2 : ∃ q, a = 2 ^ k * q :=
    ⟨a / 2 ^ k, (Nat.mul_div_cancel' (Nat.dvd_of_mod_eq_zero ha)).symm⟩
  obtain ⟨q, rfl⟩ := ha2
  apply Nat.eq_of_testBit_eq
  intro i
  rw [Nat.testBit_or, Nat.testBit_mul_pow_two_add q hb i]
  by_cases hik : i < k
  · have h1 : Nat.testBit (2 ^ k * q) i = false := by
      have : (2 ^ k * q) % 2 ^ k = 0 := by
        simp [Nat.mul_mod_right]
      have hmod : Nat.testBit ((2 ^ k * q) % 2 ^ k) i = Nat.testBit (2 ^ k * q) i := by
        rw [Nat.testBit_mod_two_pow]
        simp [hik]
      rw [← hmod, this]
      simp [Nat.zero_testBit]
    simp [h1, hik]
  · have h2 : Nat.testBit b i = false :=
      Nat.testBit_lt_two_pow (lt_of_lt_of_le hb (Nat.pow_le_pow_right (by norm_num) (by omega)))
    have h3 : Nat.testBit (2 ^ k * q) i = Nat.testBit q (i - k) := by
      have := Nat.testBit_mul_pow_two_add q (b := 0) (i := k) (by positivity) i
      simpa [hik] using this
    simp [h2, h3, hik]

/-- Network has its low `32 - p` bits zero. -/
theorem network_low_zero (ip p : Nat) (hp : p < 33) :
    (ip &&& mask_from_pfx p) % 2 ^ (32 - p) = 0 := by
  have h : ip &&& mask_from_pfx p &&& (2 ^ (32 - p) - 1) = 0 := by
    rw [Nat.and_assoc]
    have hm : mask_from_pfx p &&& (2 ^ (32 - p) - 1) = 0 := by
      have := mask_low_bits p hp
      have heq : mask_from_pfx p &&& (2 ^ (32 - p) - 1) = mask_from_pfx p % 2 ^ (32 - p) := by
        apply Nat.eq_of_testBit_eq
        intro i
        rw [Nat.testBit_and, Nat.testBit_mod_two_pow]
        by_cases hi : i < 32 - p
        · have : Nat.testBit (2 ^ (32 - p) - 1) i = true := by
            simp [Nat.testBit_two_pow_sub_one, hi]
          simp [this, hi]
        · have : Nat.testBit (2 ^ (32 - p) - 1) i = false := by
            simp [Nat.testBit_two_pow_sub_one, hi]
          simp [this, hi]
      rw [heq, this]
    rw [hm, Nat.and_zero]
  have heq2 : ip &&& mask_from_pfx p &&& (2 ^ (32 - p) - 1)
      = (ip &&& mask_from_pfx p) % 2 ^ (32 - p) := by
    apply Nat.eq_of_testBit_eq
    intro i
    rw [Nat.testBit_and, Nat.testBit_mod_two_pow]
    by_cases hi : i < 32 - p
    · have : Nat.testBit (2 ^ (32 - p) - 1) i = true := by
        simp [Nat.testBit_two_pow_sub_one, hi]
      simp [this, hi]
    · have : Nat.testBit (2 ^ (32 - p) - 1) i = false := by
        simp [Nat.testBit_two_pow_sub_one, hi]
      simp [this, hi]
  rw [← heq2, h]

/-- The broadcast address equals network plus the wildcard value. -/
theorem broadcast_eq_add (ip p : Nat) (hp : p < 33) :
    (compute ip p).broadcast = (compute ip p).network + (2 ^ (32 - p) - 1) := by
  show (ip &&& mask_from_pfx p) ||| wildcard_from_mask (mask_from_pfx p) = _
  rw [wildcard_val p hp]
  exact or_eq_add_of_low_zero (32 - p) _ _ (network_low_zero ip p hp)
    (by have := Nat.two_pow_pos (32 - p); omega)

/-- The network is bounded by the mask. -/
theorem network_le_mask (ip p : Nat) :
    (compute ip p).network ≤ mask_from_pfx p := Nat.and_le_right

theorem compute_mask (ip p : Nat) : (compute ip p).mask = mask_from_pfx p := rfl

theorem compute_wildcard (ip p : Nat) :
    (compute ip p).wildcard = wildcard_from_mask (mask_from_pfx p) := rfl

theorem compute_network (ip p : Nat) :
    (compute ip p).network = ip &&& mask_from_pfx p := rfl

theorem compute_broadcast (ip p : Nat) :
    (compute ip p).broadcast
      = (ip &&& mask_from_pfx p) ||| wildcard_from_mask (mask_from_pfx p) := rfl

theorem compute_host_min (ip p : Nat) :
    (compute ip p).host_min
      = if 31 ≤ p then (compute ip p).network
        else ((compute ip p).network + 1) % 4294967296 := rfl

theorem compute_host_max (ip p : Nat) :
    (compute ip p).host_max
      = if 31 ≤ p then (compute ip p).broadcast
        else ((compute ip p).broadcast + 4294967295) % 4294967296 := rfl

theorem compute_hosts (ip p : Nat) : (compute ip p).hosts = hosts_net p := rfl

/-- The network value never exceeds 2^32 minus the subnet size. -/
theorem network_bound (ip p : Nat) (hp : p < 33) :
    (compute ip p).network ≤ 4294967296 - 2 ^ (32 - p) := by
  have h := network_le_mask ip p
  rwa [mask_val p hp] at h

theorem two_pow_32_sub_le (p : Nat) (hp : p < 33) : 2 ^ (32 - p) ≤ 4294967296 := by
  calc 2 ^ (32 - p) ≤ 2 ^ 32 := Nat.pow_le_pow_right (by norm_num) (by omega)
    _ = 4294967296 := by norm_num

theorem four_le_two_pow (p : Nat) (hp : p ≤ 30) : 4 ≤ 2 ^ (32 - p) := by
  calc (4 : Nat) = 2 ^ 2 := by norm_num
    _ ≤ 2 ^ (32 - p) := Nat.pow_le_pow_right (by norm_num) (by omega)

theorem byteBits_length (b : Nat) : (byteBits b).length = 8 := by
  simp [byteBits]

theorem parse_octet_le (l : List Char) (x : Nat) (h : parse_octet l = some x) : x ≤ 255 := by
  unfold parse_octet at h
  split at h
  · rename_i hc
    injection h with h'
    omega
  · exact absurd h (by simp)

theorem ipv4_from_str_lt (l : List Char) (x : Nat) (h : ipv4_from_str l = some x) :
    x < 4294967296 := by
  unfold ipv4_from_str at h
  split at h
  · simp only [Option.bind_eq_some] at h
    obtain ⟨x1, h1, x2, h2, x3, h3, x4, h4, hx⟩ := h
    injection hx with hx
    have b1 := parse_octet_le _ _ h1
    have b2 := parse_octet_le _ _ h2
    have b3 := parse_octet_le _ _ h3
    have b4 := parse_octet_le _ _ h4
    omega
  · exact absurd h (by simp)

/- ### The claims -/

/-- Claim C1: for every prefix P in [0,32], the mask has exactly P leading
1-bits followed by 32−P zero bits (bit i is set iff 32−P ≤ i < 32), it is 0
when P = 0 (the guarded shift-by-32 case), and the wildcard is the exact
bitwise complement of the mask on all 32 bits. -/
theorem mask_leading_ones_wildcard_complement : ∀ p, p < 33 →
    (p = 0 → mask_from_pfx p = 0) ∧
    (∀ i, i < 32 → (mask_from_pfx p).testBit i = decide (32 - p ≤ i)) ∧
    (∀ i, i < 32 → (wildcard_from_mask (mask_from_pfx p)).testBit i
       = ! (mask_from_pfx p).testBit i) ∧
    mask_from_pfx p < 4294967296 ∧ wildcard_from_mask (mask_from_pfx p) < 4294967296 := by
  decide

theorem mask_leading_ones_wildcard_complement_witness :
    (20 : Nat) < 33 ∧
    (((20 : Nat) = 0 → mask_from_pfx 20 = 0) ∧
     (∀ i, i < 32 → (mask_from_pfx 20).testBit i = decide (32 - 20 ≤ i)) ∧
     (∀ i, i < 32 → (wildcard_from_mask (mask_from_pfx 20)).testBit i
        = ! (mask_from_pfx 20).testBit i) ∧
     mask_from_pfx 20 < 4294967296 ∧ wildcard_from_mask (mask_from_pfx 20) < 4294967296) :=
  ⟨by decide, mask_leading_ones_wildcard_complement 20 (by decide)⟩

/-- Claim C2: the host count is 2^(32−P)−2 for P ≤ 30 (in particular
2^32−2 = 4294967294 for P = 0, computed without overflow in the embedded
u128/i64 arithmetic), 2 for P = 31, and 1 for P = 32. -/
theorem hosts_net_spec : ∀ p, p < 33 →
    (p ≤ 30 → hosts_net p = (2 : Int) ^ (32 - p) - 2) ∧
    (p = 0 → hosts_net p = 4294967294) ∧
    (p = 31 → hosts_net p = 2) ∧
    (p = 32 → hosts_net p = 1) := by
  decide

theorem hosts_net_spec_witness :
    (0 : Nat) < 33 ∧
    (((0 : Nat) ≤ 30 → hosts_net 0 = (2 : Int) ^ (32 - 0) - 2) ∧
     ((0 : Nat) = 0 → hosts_net 0 = 4294967294) ∧
     ((0 : Nat) = 31 → hosts_net 0 = 2) ∧
     ((0 : Nat) = 32 → hosts_net 0 = 1)) :=
  ⟨by decide, hosts_net_spec 0 (by decide)⟩

/-- Claim C3: host range endpoints: for P < 31, HostMin = Network+1 and
HostMax = Broadcast−1 (the u32 arithmetic does not wrap there); for P = 31,
HostMin = Network and HostMax = Broadcast; for P = 32 additionally
Network = Broadcast, so all four coincide. -/
theorem host_range_spec : ∀ ip p, ip < 4294967296 → p < 33 →
    (p < 31 → (compute ip p).host_min = (compute ip p).network + 1 ∧
              (compute ip p).host_max = (compute ip p).broadcast - 1) ∧
    (p = 31 → (compute ip p).host_min = (compute ip p).network ∧
              (compute ip p).host_max = (compute ip p).broadcast) ∧
    (p = 32 → (compute ip p).host_min = (compute ip p).network ∧
              (compute ip p).host_max = (compute ip p).broadcast ∧
              (compute ip p).network = (compute ip p).broadcast) := by
  intro ip p hip hp
  have hb := broadcast_eq_add ip p hp
  have hnb := network_bound ip p hp
  have hle := two_pow_32_sub_le p hp
  have hpos := Nat.two_pow_pos (32 - p)
  refine ⟨?_, ?_, ?_⟩
  · intro h31
    have h4 := four_le_two_pow p (by omega)
    rw [compute_host_min, compute_host_max, if_neg (by omega), if_neg (by omega)]
    omega
  · intro h31
    rw [compute_host_min, compute_host_max, if_pos (by omega), if_pos (by omega)]
    exact ⟨rfl, rfl⟩
  · intro h32
    subst h32
    rw [compute_host_min, compute_host_max, if_pos (by omega), if_pos (by omega)]
    refine ⟨rfl, rfl, ?_⟩
    rw [hb]
    simp

theorem host_range_spec_witness :
    (3232235786 : Nat) < 4294967296 ∧ (24 : Nat) < 33 ∧
    (((24 : Nat) < 31 → (compute 3232235786 24).host_min = (compute 3232235786 24).network + 1 ∧
              (compute 3232235786 24).host_max = (compute 3232235786 24).broadcast - 1) ∧
     ((24 : Nat) = 31 → (compute 3232235786 24).host_min = (compute 3232235786 24).network ∧
              (compute 3232235786 24).host_max = (compute 3232235786 24).broadcast) ∧
     ((24 : Nat) = 32 → (compute 3232235786 24).host_min = (compute 3232235786 24).network ∧
              (compute 3232235786 24).host_max = (compute 3232235786 24).broadcast ∧
              (compute 3232235786 24).network = (compute 3232235786 24).broadcast)) :=
  ⟨by decide, by decide, host_range_spec 3232235786 24 (by decide) (by decide)⟩

/-- Claim C4: Network = Address AND Mask, Broadcast = Network OR Wildcard,
the identity network OR wildcard = broadcast always holds, and network and
wildcard occupy disjoint bits (they partition the broadcast). -/
theorem network_broadcast_identity : ∀ ip p, p < 33 →
    (compute ip p).network = ip &&& (compute ip p).mask ∧
    (compute ip p).broadcast = (compute ip p).network ||| (compute ip p).wildcard ∧
    ((ip &&& mask_from_pfx p) ||| wildcard_from_mask (mask_from_pfx p)
       = (compute ip p).broadcast) ∧
    (compute ip p).network &&& (compute ip p).wildcard = 0 := by
  intro ip p hp
  refine ⟨rfl, rfl, rfl, ?_⟩
  rw [compute_network, compute_wildcard, Nat.and_assoc, mask_and_wildcard p hp,
    Nat.and_zero]

theorem network_broadcast_identity_witness :
    (24 : Nat) < 33 ∧
    ((compute 3232235786 24).network = 3232235786 &&& (compute 3232235786 24).mask ∧
     (compute 3232235786 24).broadcast
       = (compute 3232235786 24).network ||| (compute 3232235786 24).wildcard ∧
     ((3232235786 &&& mask_from_pfx 24) ||| wildcard_from_mask (mask_from_pfx 24)
        = (compute 3232235786 24).broadcast) ∧
     (compute 3232235786 24).network &&& (compute 3232235786 24).wildcard = 0) :=
  ⟨by decide, network_broadcast_identity 3232235786 24 (by decide)⟩

/-- Claim C5: the class label depends only on the first octet, with
boundaries 0 → reserved-0.x, 1–126 → Class A, 127 → Loopback,
128–191 → Class B, 192–223 → Class C, 224–239 → Class D, 240–255 → Class E. -/
theorem class_from_first_octet : ∀ x, x < 4294967296 →
    (x / 16777216 = 0 → (detect_class_and_priv x).1 = "Address with 0.x (reserved)") ∧
    (1 ≤ x / 16777216 → x / 16777216 ≤ 126 → (detect_class_and_priv x).1 = "Class A") ∧
    (x / 16777216 = 127 → (detect_class_and_priv x).1 = "Loopback") ∧
    (128 ≤ x / 16777216 → x / 16777216 ≤ 191 → (detect_class_and_priv x).1 = "Class B") ∧
    (192 ≤ x / 16777216 → x / 16777216 ≤ 223 → (detect_class_and_priv x).1 = "Class C") ∧
    (224 ≤ x / 16777216 → x / 16777216 ≤ 239 →
      (detect_class_and_priv x).1 = "Class D (multicast)") ∧
    (240 ≤ x / 16777216 → (detect_class_and_priv x).1 = "Class E (reserved)") := by
  intro x hx
  have h256 : x / 16777216 < 256 := by omega
  have hfst : (detect_class_and_priv x).1 = detect_class (x / 16777216) := by
    simp [detect_class_and_priv, Nat.mod_eq_of_lt h256]
  rw [hfst]
  unfold detect_class
  refine ⟨?_, ?_, ?_, ?_, ?_, ?_, ?_⟩ <;>
    (intros; split_ifs <;> first | rfl | omega)

theorem class_from_first_octet_witness :
    (2130706433 : Nat) < 4294967296 ∧
    ((2130706433 / 16777216 = 0 →
       (detect_class_and_priv 2130706433).1 = "Address with 0.x (reserved)") ∧
     (1 ≤ 2130706433 / 16777216 → 2130706433 / 16777216 ≤ 126 →
       (detect_class_and_priv 2130706433).1 = "Class A") ∧
     (2130706433 / 16777216 = 127 → (detect_class_and_priv 2130706433).1 = "Loopback") ∧
     (128 ≤ 2130706433 / 16777216 → 2130706433 / 16777216 ≤ 191 →
       (detect_class_and_priv 2130706433).1 = "Class B") ∧
     (192 ≤ 2130706433 / 16777216 → 2130706433 / 16777216 ≤ 223 →
       (detect_class_and_priv 2130706433).1 = "Class C") ∧
     (224 ≤ 2130706433 / 16777216 → 2130706433 / 16777216 ≤ 239 →
       (detect_class_and_priv 2130706433).1 = "Class D (multicast)") ∧
     (240 ≤ 2130706433 / 16777216 →
       (detect_class_and_priv 2130706433).1 = "Class E (reserved)")) :=
  ⟨by decide, class_from_first_octet 2130706433 (by decide)⟩

/-- Claim C6: the private flag is true exactly on 10.0.0.0/8 (first octet 10),
172.16.0.0/12 (top twelve bits 2753), and 192.168.0.0/16 (top sixteen bits
49320); for first octet 172 it reduces to the second octet lying in [16,31],
so 172.15.x.x and 172.32.x.x are excluded and 172.16.x.x and 172.31.x.x
are included. -/
theorem private_iff : ∀ x, x < 4294967296 →
    (((detect_class_and_priv x).2 = true) ↔
      (x / 16777216 = 10 ∨ x / 1048576 = 2753 ∨ x / 65536 = 49320)) ∧
    (x / 16777216 = 172 →
      (((detect_class_and_priv x).2 = true) ↔
        (16 ≤ x / 65536 % 256 ∧ x / 65536 % 256 ≤ 31))) := by
  intro x hx
  simp only [detect_class_and_priv, Bool.or_eq_true, Bool.and_eq_true, beq_iff_eq,
    decide_eq_true_eq]
  constructor
  · omega
  · intro h172
    omega

theorem private_iff_witness :
    (2886729729 : Nat) < 4294967296 ∧
    ((((detect_class_and_priv 2886729729).2 = true) ↔
       (2886729729 / 16777216 = 10 ∨ 2886729729 / 1048576 = 2753 ∨
        2886729729 / 65536 = 49320)) ∧
     (2886729729 / 16777216 = 172 →
       (((detect_class_and_priv 2886729729).2 = true) ↔
         (16 ≤ 2886729729 / 65536 % 256 ∧ 2886729729 / 65536 % 256 ≤ 31)))) :=
  ⟨by decide, private_iff 2886729729 (by decide)⟩

/-- Claim C7: the formatter emits the four octets as 8-bit groups; when
P % 8 ≠ 0 the octet at index P / 8 is split at bit offset P % 8 into two
tokens (lengths P % 8 and 8 − P % 8), giving 5 tokens; when P % 8 = 0 the
tokens are exactly the four unsplit octets. The printed string joins the
tokens with single spaces. -/
theorem binary_split_tokens : ∀ x p, p < 33 →
    (p % 8 = 0 →
      binary_tokens x p = base_octets x ∧
      (binary_tokens x p).length = 4) ∧
    (p % 8 ≠ 0 →
      (binary_tokens x p).length = 5 ∧
      binary_tokens x p
        = (base_octets x).take (p / 8)
          ++ [((base_octets x).getD (p / 8) []).take (p % 8),
              ((base_octets x).getD (p / 8) []).drop (p % 8)]
          ++ (base_octets x).drop (p / 8 + 1) ∧
      ((binary_tokens x p).getD (p / 8) []).length = p % 8 ∧
      ((binary_tokens x p).getD (p / 8 + 1) []).length = 8 - p % 8) ∧
    ((base_octets x).map (fun l => l.length) = [8, 8, 8, 8]) ∧
    binary_octets_with_split x p
      = String.intercalate " " ((binary_tokens x p).map (fun l => String.mk l)) := by
  intro x p hp
  have hbase : (base_octets x).map (fun l => l.length) = [8, 8, 8, 8] := by
    simp [base_octets, byteBits_length]
  refine ⟨?_, ?_, hbase, rfl⟩ <;> interval_cases p <;>
    simp [binary_tokens, octetTokens, base_octets, List.length_take, List.length_drop,
      byteBits_length]

theorem binary_split_tokens_witness :
    (3232235786 : Nat) < 4294967296 ∧ (20 : Nat) < 33 ∧
    (((20 : Nat) % 8 = 0 →
       binary_tokens 3232235786 20 = base_octets 3232235786 ∧
       (binary_tokens 3232235786 20).length = 4) ∧
     ((20 : Nat) % 8 ≠ 0 →
       (binary_tokens 3232235786 20).length = 5 ∧
       binary_tokens 3232235786 20
         = (base_octets 3232235786).take (20 / 8)
           ++ [((base_octets 3232235786).getD (20 / 8) []).take (20 % 8),
               ((base_octets 3232235786).getD (20 / 8) []).drop (20 % 8)]
           ++ (base_octets 3232235786).drop (20 / 8 + 1) ∧
       ((binary_tokens 3232235786 20).getD (20 / 8) []).length = 20 % 8 ∧
       ((binary_tokens 3232235786 20).getD (20 / 8 + 1) []).length = 8 - 20 % 8) ∧
     ((base_octets 3232235786).map (fun l => l.length) = [8, 8, 8, 8]) ∧
     binary_octets_with_split 3232235786 20
       = String.intercalate " " ((binary_tokens 3232235786 20).map (fun l => String.mk l))) :=
  ⟨by decide, by decide, binary_split_tokens 3232235786 20 (by decide)⟩

/-- Claim C8: the four canonical malformed inputs are rejected with the
program's error messages (the error path prints the message and exits 1),
and any input on which validation succeeds splits into exactly two
slash-separated parts whose address part parses as an IPv4 address below
2^32 and whose prefix parses and is at most 32. -/
theorem validation_spec :
    run_validation "1.2.3.4" = Except.error "Invalid Format. Use: ipcalc x.x.x.x/(0-32)" ∧
    run_validation "1.2.3.4/33" = Except.error "Invalid prefix (0-32)" ∧
    run_validation "1.2.3.999/24" = Except.error "Invalid IP" ∧
    run_validation "1.2.3.4/-1" = Except.error "Invalid prefix (0-32)" ∧
    ∀ s ip p, run_validation s = Except.ok (ip, p) →
      ∃ a b, splitChar '/' s.data = [a, b] ∧
        ipv4_from_str a = some ip ∧ parse_u8 b = some p ∧ p ≤ 32 ∧ ip < 4294967296 := by
  refine ⟨by rfl, by rfl, by rfl, by rfl, ?_⟩
  intro s ip p h
  unfold run_validation at h
  split at h
  · rename_i a b heq
    refine ⟨a, b, heq, ?_⟩
    split at h
    · exact absurd h (by simp)
    · rename_i ip' hip
      split at h
      · rename_i p' hp
        split at h
        · rename_i hle
          injection h with h'
          have hip2 : ip' = ip := congrArg Prod.fst h'
          have hp2 : p' = p := congrArg Prod.snd h'
          subst hip2; subst hp2
          exact ⟨hip, hp, hle, ipv4_from_str_lt _ _ hip⟩
        · exact absurd h (by simp)
      · exact absurd h (by simp)
  · exact absurd h (by simp)

theorem validation_spec_witness :
    ∃ a b, splitChar '/' ("10.1.2.3/8" : String).data = [a, b] ∧
      ipv4_from_str a = some 167838211 ∧ parse_u8 b = some 8 ∧ 8 ≤ 32 ∧
      167838211 < 4294967296 :=
  validation_spec.2.2.2.2 "10.1.2.3/8" 167838211 8 (by rfl)

/-- Claim C9: the computed values always satisfy
Network ≤ HostMin ≤ HostMax ≤ Broadcast, with equality throughout at P = 32. -/
theorem host_range_ordered : ∀ ip p, ip < 4294967296 → p < 33 →
    (compute ip p).network ≤ (compute ip p).host_min ∧
    (compute ip p).host_min ≤ (compute ip p).host_max ∧
    (compute ip p).host_max ≤ (compute ip p).broadcast ∧
    (p = 32 → (compute ip p).network = (compute ip p).host_min ∧
      (compute ip p).host_min = (compute ip p).host_max ∧
      (compute ip p).host_max = (compute ip p).broadcast) := by
  intro ip p hip hp
  have hb := broadcast_eq_add ip p hp
  have hnb := network_bound ip p hp
  have hle := two_pow_32_sub_le p hp
  have hpos := Nat.two_pow_pos (32 - p)
  by_cases h31 : 31 ≤ p
  · rw [compute_host_min, compute_host_max, if_pos h31, if_pos h31]
    refine ⟨Nat.le_refl _, ?_, Nat.le_refl _, ?_⟩
    · rw [hb]; omega
    · intro h32
      subst h32
      have h0 : (32 : Nat) - 32 = 0 := rfl
      rw [h0] at hb
      simp at hb
      exact ⟨rfl, by rw [hb], rfl⟩
  · have h4 := four_le_two_pow p (by omega)
    rw [compute_host_min, compute_host_max, if_neg h31, if_neg h31]
    refine ⟨?_, ?_, ?_, ?_⟩
    · omega
    · omega
    · omega
    · intro h32; omega

theorem host_range_ordered_witness :
    (3232235786 : Nat) < 4294967296 ∧ (24 : Nat) < 33 ∧
    ((compute 3232235786 24).network ≤ (compute 3232235786 24).host_min ∧
     (compute 3232235786 24).host_min ≤ (compute 3232235786 24).host_max ∧
     (compute 3232235786 24).host_max ≤ (compute 3232235786 24).broadcast ∧
     ((24 : Nat) = 32 → (compute 3232235786 24).network = (compute 3232235786 24).host_min ∧
       (compute 3232235786 24).host_min = (compute 3232235786 24).host_max ∧
       (compute 3232235786 24).host_max = (compute 3232235786 24).broadcast)) :=
  ⟨by decide, by decide, host_range_ordered 3232235786 24 (by decide) (by decide)⟩

/-- Claim C10: for P ≤ 30 the increment Network+1 stays below 2^32 and the
broadcast is strictly positive (and below 2^32), so the u32 additions and
subtraction in the HostMin/HostMax branch cannot overflow or underflow. -/
theorem host_arith_no_overflow : ∀ ip p, ip < 4294967296 → p ≤ 30 →
    (compute ip p).network + 1 < 4294967296 ∧
    0 < (compute ip p).broadcast ∧
    (compute ip p).broadcast < 4294967296 := by
  intro ip p hip hp
  have hb := broadcast_eq_add ip p (by omega)
  have hnb := network_bound ip p (by omega)
  have hle := two_pow_32_sub_le p (by omega)
  have h4 := four_le_two_pow p hp
  omega

theorem host_arith_no_overflow_witness :
    (0 : Nat) < 4294967296 ∧ (0 : Nat) ≤ 30 ∧
    ((compute 0 0).network + 1 < 4294967296 ∧
     0 < (compute 0 0).broadcast ∧
     (compute 0 0).broadcast < 4294967296) :=
  ⟨by decide, by decide, host_arith_no_overflow 0 0 (by decide) (by decide)⟩

end Ipcalc
